import Mathlib

/-!
Verification development for the Markdown markup module of pymarkups
(src/markups/markdown.py).  The file shallowly embeds the extension
resolution and configuration subsystem:

* `_canonicalize_extension_name`  (markdown.py lines 88-98)
* `_split_extension_config`       (markdown.py lines 100-120)
* `_apply_extensions`             (markdown.py lines 123-155), with the
  module-level cache `_canonicalized_ext_names` (line 34) threaded as
  explicit state
* `_get_document_extensions`      (markdown.py lines 81-86), with the two
  module-level regexes `extensions_re` and `extension_name_re`
  (lines 31-32) embedded as executable matchers

External collaborators are modelled at their interface boundary:

* `importlib.import_module` / `hasattr(module, "makeExtension")` become a
  `PyEnv` record of two Boolean oracles on module names (the spec design
  notes themselves suggest exactly this injected-registry modelling).
* `ast.parse` is the CPython parser; extension tokens are therefore
  modelled by their parse trees (`PyExpr`).  A raw token string equals
  "mathjax" (resp. "remove_extra") exactly when its parse tree is the
  bare identifier node with that name, which is how the string
  comparisons of `_apply_extensions` are rendered below.
* `ast.literal_eval` is the CPython literal evaluator; it is embedded as
  a total function that succeeds exactly on literal trees (booleans,
  numbers, strings and nested sequence/tuple displays) and fails on
  every other node, matching its documented behaviour.

Python exceptions that the code does not catch (`AttributeError` from the
name walker, `ValueError` from `ast.literal_eval`) are modelled by
`Option`/`none`; a `none` step aborts the surrounding resolution run, as
an uncaught exception aborts `_apply_extensions`.
-/

/-! ## Literal values and Python expression trees -/

/-- A Python literal value as accepted by `ast.literal_eval` on the inputs
relevant here: booleans, numbers, strings, and (nested) list or tuple
displays of these. -/
inductive Lit where
  | bool (b : Bool)
  | int (n : Int)
  | str (s : String)
  | list (xs : List Lit)
  | tuple (xs : List Lit)

/-- An extension configuration mapping, i.e. the Python dict built from the
keyword arguments of a call-form token.  Updates prepend, lookups take the
first hit, so `List.lookup` gives the dict lookup semantics.  (Python
syntax rejects a repeated keyword argument, so keys are distinct on all
reachable inputs.) -/
def Config : Type := List (String × Lit)

mutual

/-- The fragment of the CPython `ast` expression node language that
extension tokens can parse to: identifiers, attribute access (dotted
names), scalar constants, list/tuple displays, and calls with positional
and keyword arguments.  Expression lists and keyword lists are mutual
inductives (rather than `List` nests) so that all recursion over the
trees is structural. -/
inductive PyExpr where
  | name (id : String)
  | attrAccess (value : PyExpr) (attr : String)
  | constB (b : Bool)
  | constI (n : Int)
  | constS (s : String)
  | listE (elts : PyExprs)
  | tupleE (elts : PyExprs)
  | call (func : PyExpr) (args : PyExprs) (keywords : PyKws)

/-- A list of expression nodes (the `elts` of a display, the positional
`args` of a call). -/
inductive PyExprs where
  | nil
  | cons (head : PyExpr) (tail : PyExprs)

/-- The `keywords` of a call node: keyword name / value pairs. -/
inductive PyKws where
  | nil
  | cons (key : String) (value : PyExpr) (tail : PyKws)

end

/-- The keyword list as a plain list of pairs, for stating properties. -/
def PyKws.toList : PyKws → List (String × PyExpr)
  | .nil => []
  | .cons k v rest => (k, v) :: rest.toList

/-! ## The module-probing environment (importlib boundary) -/

/-- The import system, seen through the two questions the code asks of it:
does `importlib.import_module(m)` succeed (without raising `ImportError`,
`ValueError` or `TypeError`), and does the loaded module expose a
`makeExtension` attribute.  Availability is static for the process. -/
structure PyEnv where
  importOk : String → Bool
  hasMakeExtension : String → Bool

/-- `importlib.import_module(m)` succeeds and the module has the
`makeExtension` factory: the success condition of one loop iteration of
`_canonicalize_extension_name` (the `hasattr` test is only reached when
the import succeeded, so the conjunction is exact). -/
def loadsWithFactory (env : PyEnv) (mod : String) : Bool :=
  env.importOk mod && env.hasMakeExtension mod

/-- markdown.py lines 88-98: try the namespace prefixes in the order of
the source tuple `("markdown.extensions.", "", "mdx_")`; the first prefix
whose module loads and exposes `makeExtension` wins; if the loop falls
through, the Python function returns `None`. -/
def _canonicalize_extension_name (env : PyEnv) (extension_name : String) :
    Option String :=
  let pfxs := ["markdown.extensions.", "", "mdx_"]
  pfxs.findSome? fun p =>
    if loadsWithFactory env (p ++ extension_name) then some (p ++ extension_name)
    else none

/-- Modelled from the spec: the resolution order the specification (and
claim C1) describes — empty prefix first, then the engine-extensions
prefix, then the legacy third-party prefix.  This definition follows the
spec words and exists only to be compared with
`_canonicalize_extension_name`, which follows the source. -/
def canonicalizeSpecOrder (env : PyEnv) (extension_name : String) :
    Option String :=
  let pfxs := ["", "markdown.extensions.", "mdx_"]
  pfxs.findSome? fun p =>
    if loadsWithFactory env (p ++ extension_name) then some (p ++ extension_name)
    else none

/-! ## ast.literal_eval and the config-call parser -/

mutual

/-- `ast.literal_eval` on an expression node: evaluates literal trees and
raises (`none`) on anything else — identifiers, attribute access, calls. -/
def literal_eval : PyExpr → Option Lit
  | .constB b => some (.bool b)
  | .constI n => some (.int n)
  | .constS s => some (.str s)
  | .listE elts => (litEvalList elts).map .list
  | .tupleE elts => (litEvalList elts).map .tuple
  | _ => none

/-- Evaluates every element of a sequence display, failing if any element
fails (`ast.literal_eval` raises on the first non-literal element). -/
def litEvalList : PyExprs → Option (List Lit)
  | .nil => some []
  | .cons e rest =>
    match literal_eval e, litEvalList rest with
    | some l, some ls => some (l :: ls)
    | _, _ => none

end

/-- markdown.py lines 102-106 and 110: the helper `_aux_` walks an
attribute chain inward collecting attribute names and finally the base
identifier, and `solve_name` joins the reversed chain with dots.  A chain
whose base is not an identifier makes `_aux_` raise `AttributeError`
(modelled by `none`). -/
def solve_name : PyExpr → Option String
  | .name id => some id
  | .attrAccess value a => (solve_name value).map (fun base => base ++ "." ++ a)
  | _ => none

/-- markdown.py line 118: the dict comprehension
over `expression.keywords` — every keyword value goes through
`ast.literal_eval`, and a non-literal value raises (`none`).  Positional
arguments never enter this comprehension. -/
def evalKeywords : PyKws → Option Config
  | .nil => some ([] : List (String × Lit))
  | .cons k v rest =>
    match literal_eval v, evalKeywords rest with
    | some l, some cfg => some ((k, l) :: cfg)
    | _, _ => none

/-- markdown.py lines 100-120, on the parse tree of the token
(`ast.parse(extension_name).body[0].value` is the external-parser
boundary).  A non-call token returns its dotted name with an empty
config; a call token returns the dotted name of its callee and the
keyword-argument dict.  `none` models the uncaught Python exceptions
(`AttributeError` from `_aux_`, `ValueError` from `ast.literal_eval`). -/
def _split_extension_config (expression : PyExpr) : Option (String × Config) :=
  match expression with
  | .call func _args keywords =>
    match solve_name func with
    | none => none
    | some extension_name =>
      match evalKeywords keywords with
      | none => none
      | some kwargs => some (extension_name, kwargs)
  | _ =>
    match solve_name expression with
    | none => none
    | some extension_name => some (extension_name, ([] : List (String × Lit)))

/-! ## The extension set resolver -/

/-- markdown.py line 131: the fixed configuration installed for the
`mathjax` pseudo-token. -/
def mathjax_config : Config := [("enable_dollar_delimiter", Lit.bool true)]

/-- The mutable data `_apply_extensions` works on: the accumulating name
set (a Python `set`, modelled as a duplicate-free list with
`List.insert` / `List.erase`), the per-name configuration dict, and the
process-wide canonicalization cache `_canonicalized_ext_names`
(markdown.py line 34), all with first-hit `List.lookup` as dict lookup
and prepend as dict update. -/
structure RState where
  names : List String
  configs : List (String × Config)
  cache : List (String × String)

/-- Observable side effects of a resolution run: the tokens passed to
`warnings.warn` (markdown.py lines 145-146) and the raw names for which
`_canonicalize_extension_name` was invoked, i.e. for which module-load
attempts were actually performed. -/
structure RLog where
  warns : List PyExpr
  attempts : List String

/-- Concatenation of two effect logs. -/
def RLog.app (a b : RLog) : RLog :=
  ⟨a.warns ++ b.warns, a.attempts ++ b.attempts⟩

/-- markdown.py lines 140-148, the per-name resolution fragment of
`_apply_extensions`: consult the process-wide cache; on a miss call
`_canonicalize_extension_name`.  Returns the resolution result, the
updated cache, and whether a module-load attempt was performed (the
cache-miss path).  Note the source caches only successes: the failure
branch issues a warning and `continue`s before the cache write on
line 148. -/
def resolveName (env : PyEnv) (cache : List (String × String)) (name : String) :
    Option String × List (String × String) × Bool :=
  match List.lookup name cache with
  | some canonical_name => (some canonical_name, cache, false)
  | none =>
    match _canonicalize_extension_name env name with
    | some canonical_name => (some canonical_name, (name, canonical_name) :: cache, true)
    | none => (none, cache, true)

/-- The raw token string equals the given bare identifier.  Tokens are
modelled by their parse trees, and a token string is `"mathjax"` exactly
when its parse tree is `PyExpr.name "mathjax"`; this renders the string
comparisons on markdown.py lines 130 and 133. -/
def isNameTok (extension : PyExpr) (s : String) : Bool :=
  match extension with
  | .name id => id == s
  | _ => false

/-- One iteration of the `for extension in extensions` loop of
`_apply_extensions` (markdown.py lines 129-150):

* `mathjax` installs the fixed math configuration for `"mdx_math"`
  (and touches nothing else — in particular it does not add to the
  name set);
* `remove_extra` discards the two baseline names from the name set if
  present;
* any other token is split into name and config, resolved through the
  cache, and on success added to both the name set and the config dict;
  on resolution failure the token is reported to `warnings.warn` and
  skipped (`continue`), with no cache write.

`none` models an uncaught exception escaping from
`_split_extension_config`. -/
def stepExt (env : PyEnv) (st : RState) (extension : PyExpr) :
    Option (RState × RLog) :=
  if isNameTok extension "mathjax" then
    some ({ st with configs := ("mdx_math", mathjax_config) :: st.configs },
          ⟨[], []⟩)
  else if isNameTok extension "remove_extra" then
    some ({ st with
            names := (st.names.erase "markdown.extensions.extra").erase "mdx_math" },
          ⟨[], []⟩)
  else
    match _split_extension_config extension with
    | none => none
    | some (name, config) =>
      match resolveName env st.cache name with
      | (some canonical_name, cache2, attempted) =>
        some ({ names := st.names.insert canonical_name,
                configs := (canonical_name, config) :: st.configs,
                cache := cache2 },
              ⟨[], if attempted then [name] else []⟩)
      | (none, cache2, attempted) =>
        some ({ st with cache := cache2 },
              ⟨[extension], if attempted then [name] else []⟩)

/-- The whole token loop of `_apply_extensions`, accumulating the effect
log. -/
def processExts (env : PyEnv) : RState → List PyExpr → Option (RState × RLog)
  | st, [] => some (st, ⟨[], []⟩)
  | st, t :: ts =>
    match stepExt env st t with
    | none => none
    | some (st2, l) =>
      match processExts env st2 ts with
      | none => none
      | some (st3, l2) => some (st3, RLog.app l l2)

/-- markdown.py lines 126-127: the initial accumulator — the two baseline
canonical names in the name set, an empty config dict, and the current
contents of the process-wide cache. -/
def initState (cache : List (String × String)) : RState :=
  ⟨["markdown.extensions.extra", "mdx_math"], [], cache⟩

/-- markdown.py lines 123-155: concatenate the three token sources in
source order (requested, then global, then document) and run the loop
from the initial accumulator.  The resulting state carries the final
`extension_names` / `extension_configs` / cache, and the log carries the
warnings and load attempts of the run. -/
def _apply_extensions (env : PyEnv)
    (requested globalExts documentExts : List PyExpr)
    (cache : List (String × String)) : Option (RState × RLog) :=
  processExts env (initState cache) (requested ++ globalExts ++ documentExts)

/-! ## The directive scanner -/

/-- A line-boundary character of Python `str.splitlines`: line feed,
carriage return (also covering the `\r\n` pair), vertical tab, form feed,
the file/group/record separators `\x1c`-`\x1e`, next line `\x85`, and
the Unicode line separator U+2028 and paragraph separator U+2029. -/
def isLineBreak (ch : Char) : Bool :=
  ch == '\n' || ch == '\r' || ch == '\x0b' || ch == '\x0c'
    || ch == '\x1c' || ch == '\x1d' || ch == '\x1e' || ch == '\x85'
    || ch == '\u2028' || ch == '\u2029'

/-- The first line of the text, or `none` when the text is empty:
`text.splitlines()` is `[]` exactly for the empty string, and otherwise
`lines[0]` is the run of characters before the first line-boundary
character (so a first line never contains one). -/
def firstLine (text : String) : Option (List Char) :=
  match text.data with
  | [] => none
  | cs => some (cs.takeWhile fun ch => !(isLineBreak ch))

/-- Case-insensitively strip a literal pattern from the front of the
input, returning the remainder. -/
def stripCI : List Char → List Char → Option (List Char)
  | [], cs => some cs
  | _ :: _, [] => none
  | p :: ps, ch :: cs =>
    if ch.toLower == p.toLower then stripCI ps cs else none

/-- A match of `extensions_re` (markdown.py line 31, the pattern
`required.extensions: (.+)` with `re.IGNORECASE`) anchored at the head of
the input: the literal word `required` case-insensitively, one arbitrary
character (`.`, which does not match a newline), the literal
`extensions: ` case-insensitively, and a nonempty remainder that the
greedy `(.+)` captures to the end of the line. -/
def matchDirectiveAt (cs : List Char) : Option (List Char) :=
  match stripCI "required".data cs with
  | none => none
  | some cs1 =>
    match cs1 with
    | [] => none
    | ch :: cs2 =>
      if ch == '\n' then none
      else
        match stripCI "extensions: ".data cs2 with
        | none => none
        | some rest => if rest.isEmpty then none else some rest

/-- `extensions_re.search`: try the anchored match at every position from
left to right and return the capture of the leftmost match. -/
def searchDirective : List Char → Option (List Char)
  | [] => none
  | ch :: cs =>
    match matchDirectiveAt (ch :: cs) with
    | some rest => some rest
    | none => searchDirective cs

/-- Membership in the character class `[a-z0-9_.]` of
`extension_name_re`, under `re.IGNORECASE` (ASCII case folding). -/
def isNameChar (ch : Char) : Bool :=
  (ch.toLower.isLower) || ch.isDigit || ch == '_' || ch == '.'

/-- A match of `extension_name_re` (markdown.py line 32, the pattern
`[a-z0-9_.]+(?:\([^)]+\))?` with `re.IGNORECASE`) anchored at the head of
the input: a nonempty maximal run of name characters, then optionally a
parenthesized nonempty run of non-`)` characters closed by `)`; when the
parenthesized part cannot complete, the optional group backtracks to
empty.  Returns the matched characters and the remainder. -/
def matchExtAt (cs : List Char) : Option (List Char × List Char) :=
  let nm := cs.takeWhile isNameChar
  if nm.isEmpty then none
  else
    let rest := cs.drop nm.length
    match rest with
    | '(' :: rs =>
      let inner := rs.takeWhile (fun ch => ch != ')')
      if inner.isEmpty then some (nm, rest)
      else
        match rs.drop inner.length with
        | ')' :: rs2 => some (nm ++ '(' :: (inner ++ [')']), rs2)
        | _ => some (nm, rest)
    | _ => some (nm, rest)

/-- `extension_name_re.findall`: scan left to right collecting
non-overlapping matches, restarting after each match and advancing one
character past positions where no match starts.  Every match consumes at
least one character, so fuel equal to the input length suffices. -/
def findallExtGo : Nat → List Char → List String
  | 0, _ => []
  | _, [] => []
  | fuel + 1, ch :: cs =>
    match matchExtAt (ch :: cs) with
    | some (m, rest) => String.mk m :: findallExtGo fuel rest
    | none => findallExtGo fuel cs

/-- `extension_name_re.findall` on a character list. -/
def findallExt (cs : List Char) : List String :=
  findallExtGo cs.length cs

/-- markdown.py lines 81-86: split the text into lines; search the first
line (if any) for the directive pattern; on a match, tokenize the capture
with `extension_name_re.findall`; otherwise return the empty list. -/
def _get_document_extensions (text : String) : List String :=
  match firstLine text with
  | none => []
  | some line =>
    match searchDirective line with
    | none => []
    | some rest => findallExt rest

/-! ## Concrete environments used by the concrete-input theorems -/

/-- An import system in which no module loads at all. -/
def envNone : PyEnv := ⟨fun _ => false, fun _ => false⟩

/-- An import system in which both `extra` and `markdown.extensions.extra`
load and expose `makeExtension`. -/
def envBoth : PyEnv :=
  ⟨fun s => s == "extra" || s == "markdown.extensions.extra",
   fun s => s == "extra" || s == "markdown.extensions.extra"⟩

/-- An import system in which exactly `markdown.extensions.extra` loads
and exposes `makeExtension` (the baseline extras bundle of a stock
python-markdown install). -/
def envExtra : PyEnv :=
  ⟨fun s => s == "markdown.extensions.extra",
   fun s => s == "markdown.extensions.extra"⟩

/-! ## Basic lemmas about the resolver pieces -/

theorem RLog.app_assoc (a b c : RLog) :
    RLog.app (RLog.app a b) c = RLog.app a (RLog.app b c) := by
  simp [RLog.app, List.append_assoc]

theorem RLog.app_empty_left (l : RLog) : RLog.app ⟨[], []⟩ l = l := by
  simp [RLog.app]

/-- The three-element prefix list of `_canonicalize_extension_name`,
unfolded: first the engine namespace, then the bare name, then the
legacy `mdx_` namespace. -/
theorem canonicalize_unfold (env : PyEnv) (name : String) :
    _canonicalize_extension_name env name =
      (if loadsWithFactory env ("markdown.extensions." ++ name) then
        some ("markdown.extensions." ++ name)
      else if loadsWithFactory env name then some name
      else if loadsWithFactory env ("mdx_" ++ name) then some ("mdx_" ++ name)
      else none) := by
  have hnil : "" ++ name = name := rfl
  by_cases h1 : loadsWithFactory env ("markdown.extensions." ++ name) <;>
    by_cases h2 : loadsWithFactory env name <;>
      by_cases h3 : loadsWithFactory env ("mdx_" ++ name) <;>
        simp [_canonicalize_extension_name, List.findSome?, hnil, h1, h2, h3]

/-- A successful `resolveName` records the association in the returned
cache and disturbs no other key; the cache grows only with names the
canonicalizer resolves. -/
theorem resolveName_some {env : PyEnv} {cache : List (String × String)}
    {name cn : String} {cache2 : List (String × String)} {att : Bool}
    (h : resolveName env cache name = (some cn, cache2, att)) :
    cache2 = cache ∨
      (cache2 = (name, cn) :: cache ∧
       _canonicalize_extension_name env name = some cn) := by
  unfold resolveName at h
  rcases hlk : List.lookup name cache with _ | c
  · rw [hlk] at h
    rcases hcn : _canonicalize_extension_name env name with _ | c2
    · rw [hcn] at h; exact absurd h (by simp)
    · rw [hcn] at h
      injection h with h1 h2
      injection h2 with h2 h3
      injection h1 with h1
      subst h1
      exact Or.inr ⟨h2.symm, rfl⟩
  · rw [hlk] at h
    injection h with h1 h2
    injection h2 with h2 h3
    left
    exact h2.symm

/-- A failed `resolveName` leaves the cache untouched and reports that a
load attempt was made (the failure branch is only reachable on a cache
miss). -/
theorem resolveName_none {env : PyEnv} {cache : List (String × String)}
    {name : String} {cache2 : List (String × String)} {att : Bool}
    (h : resolveName env cache name = (none, cache2, att)) :
    cache2 = cache ∧ att = true ∧ List.lookup name cache = none ∧
      _canonicalize_extension_name env name = none := by
  unfold resolveName at h
  rcases hlk : List.lookup name cache with _ | c
  · rw [hlk] at h
    rcases hcn : _canonicalize_extension_name env name with _ | c2
    · rw [hcn] at h
      injection h with h1 h2
      injection h2 with h2 h3
      exact ⟨h2.symm, h3.symm, rfl, rfl⟩
    · rw [hcn] at h; exact absurd h (by simp)
  · rw [hlk] at h; exact absurd h (by simp)

/-! ## Claim C1 -/

/-- C1 counterexample.  The claim says the empty prefix is tried first,
so a name that is importable both bare and under `markdown.extensions.`
would canonicalize to the bare name.  In the source the tuple on line 89
is `("markdown.extensions.", "", "mdx_")`: with both modules available,
`extra` canonicalizes to `markdown.extensions.extra`, not to `extra` as
the claimed order (`canonicalizeSpecOrder`) would produce. -/
theorem C1_counterexample :
    _canonicalize_extension_name envBoth "extra" = some "markdown.extensions.extra"
    ∧ canonicalizeSpecOrder envBoth "extra" = some "extra"
    ∧ ("markdown.extensions.extra" : String) ≠ "extra" :=
  ⟨rfl, rfl, by decide⟩

/-- C1 (amended): canonicalization tries the namespace prefixes in the
fixed order engine-extensions prefix (`markdown.extensions.`) first, then
the empty prefix, then the legacy third-party prefix (`mdx_`); the first
prefix for which the module `prefix + rawName` loads and exposes the
extension-factory capability wins and `prefix + rawName` is returned, and
if all three fail the name is unresolved (`none`). -/
theorem C1_order_amended (env : PyEnv) (name : String) :
    _canonicalize_extension_name env name =
      (if loadsWithFactory env ("markdown.extensions." ++ name) then
        some ("markdown.extensions." ++ name)
      else if loadsWithFactory env name then some name
      else if loadsWithFactory env ("mdx_" ++ name) then some ("mdx_" ++ name)
      else none) :=
  canonicalize_unfold env name

/-! ## Claim C2 -/

/-- C2 counterexample.  The claim says a name failing under all prefixes
is cached as absent and a repeated lookup is a cache hit with no load
attempt.  In the source the failure branch (lines 144-147) warns and
`continue`s before the cache write on line 148: after a failed resolution
of `nonexistent123` the cache is still empty, and the second resolution
performs a module-load attempt again (third component `true`, where the
claim demands no attempt). -/
theorem C2_counterexample :
    resolveName envNone [] "nonexistent123" = (none, [], true)
    ∧ resolveName envNone
        (resolveName envNone [] "nonexistent123").2.1 "nonexistent123"
        = (none, [], true)
    ∧ (true : Bool) ≠ false :=
  ⟨rfl, rfl, by decide⟩

/-- C2 (amended): resolving the same rawName twice yields the same result
both times; if the first resolution succeeds, the second is a cache hit
that performs no module-load attempt; if the first resolution fails,
nothing is cached (the cache is returned unchanged), the load was
attempted, and a repeated lookup attempts the loads again. -/
theorem C2_resolution_caching_amended (env : PyEnv)
    (cache : List (String × String)) (name : String) :
    ((resolveName env (resolveName env cache name).2.1 name).1
      = (resolveName env cache name).1)
    ∧ ((resolveName env cache name).1.isSome = true →
        (resolveName env (resolveName env cache name).2.1 name).2.2 = false)
    ∧ ((resolveName env cache name).1 = none →
        (resolveName env cache name).2.1 = cache
        ∧ (resolveName env (resolveName env cache name).2.1 name).2.2 = true) := by
  rcases hlk : List.lookup name cache with _ | c
  · rcases hcn : _canonicalize_extension_name env name with _ | cn
    · simp [resolveName, hlk, hcn]
    · simp [resolveName, hlk, hcn, List.lookup]
  · simp [resolveName, hlk]

/-- Witness for `C2_resolution_caching_amended`: the failure conjunct at
the concrete failing name, and the success conjunct after a successful
resolution of `extra`. -/
theorem C2_amended_witness :
    ((resolveName envNone [] "nonexistent123").2.1 = ([] : List (String × String))
      ∧ (resolveName envNone
          (resolveName envNone [] "nonexistent123").2.1 "nonexistent123").2.2 = true)
    ∧ (resolveName envExtra
        (resolveName envExtra [] "extra").2.1 "extra").2.2 = false :=
  ⟨(C2_resolution_caching_amended envNone [] "nonexistent123").2.2 rfl,
   (C2_resolution_caching_amended envExtra [] "extra").2.1 rfl⟩

/-! ## Claim C7 -/

/-- A keyword list with a non-literal value makes the keyword dict
comprehension raise (`ast.literal_eval` rejects the value). -/
theorem evalKeywords_none : ∀ (kws : PyKws) (p : String × PyExpr),
    p ∈ kws.toList → literal_eval p.2 = none → evalKeywords kws = none
  | .nil, p, hmem, _ => by simp [PyKws.toList] at hmem
  | .cons k v rest, p, hmem, hbad => by
    simp only [PyKws.toList, List.mem_cons] at hmem
    rcases hmem with h | h
    · rw [h] at hbad
      simp only [evalKeywords]
      rw [hbad]
    · simp only [evalKeywords]
      rw [evalKeywords_none rest p h hbad]
      rcases literal_eval v with _ | l <;> rfl

/-- C7: the config-call parser accepts only the literal expression
subset.  (a) A call-form token with any non-literal keyword value (a bare
identifier reference, a nested call, an attribute access, ...) is
rejected: the parse raises, modelled by `none`.  (b) A call-form token
whose callee has a dotted name and whose keyword values all evaluate as
literals yields the (rawName, configMapping) pair.  (c) The scenario
token `toc(permalink=True)` yields name `toc` and config
`[("permalink", true)]`.  (d) A bare name yields an empty mapping. -/
theorem C7_config_literals_only :
    (∀ (f : PyExpr) (as : PyExprs) (kws : PyKws),
      (∃ p ∈ kws.toList, literal_eval p.2 = none) →
      _split_extension_config (.call f as kws) = none)
    ∧ (∀ (f : PyExpr) (as : PyExprs) (kws : PyKws) (n : String) (cfg : Config),
        solve_name f = some n → evalKeywords kws = some cfg →
        _split_extension_config (.call f as kws) = some (n, cfg))
    ∧ _split_extension_config
        (.call (.name "toc") .nil (.cons "permalink" (.constB true) .nil))
        = some ("toc", [("permalink", Lit.bool true)])
    ∧ (∀ id : String, _split_extension_config (.name id) = some (id, [])) := by
  refine ⟨?_, ?_, rfl, fun id => rfl⟩
  · rintro f as kws ⟨p, hmem, hbad⟩
    simp only [_split_extension_config]
    rw [evalKeywords_none kws p hmem hbad]
    rcases solve_name f with _ | n <;> rfl
  · intro f as kws n cfg hf hk
    simp only [_split_extension_config]
    rw [hf, hk]

/-- Witness for `C7_config_literals_only`: the rejection conjunct applied
to the call token with the bare identifier reference `badref` as keyword
value, and the acceptance conjunct at the scenario token. -/
theorem C7_witness :
    _split_extension_config
      (.call (.name "toc") .nil (.cons "permalink" (.name "badref") .nil)) = none
    ∧ _split_extension_config
        (.call (.name "toc") .nil (.cons "permalink" (.constB true) .nil))
        = some ("toc", [("permalink", Lit.bool true)]) :=
  ⟨C7_config_literals_only.1 _ _ _
      ⟨("permalink", PyExpr.name "badref"), by simp [PyKws.toList], rfl⟩,
   C7_config_literals_only.2.2.1⟩

/-! ## Claim C10 -/

/-- C10: positional arguments of a call-form token are silently ignored.
The parser result does not depend on the positional argument list at all
(so non-literal positional arguments raise nothing), and on the concrete
token `toc(badref, g(), permalink=True)` the config is built from the
keyword arguments only. -/
theorem C10_positional_args_ignored :
    (∀ (f : PyExpr) (a1 a2 : PyExprs) (kws : PyKws),
      _split_extension_config (.call f a1 kws)
        = _split_extension_config (.call f a2 kws))
    ∧ _split_extension_config
        (.call (.name "toc")
          (.cons (.name "badref") (.cons (.call (.name "g") .nil .nil) .nil))
          (.cons "permalink" (.constB true) .nil))
        = some ("toc", [("permalink", Lit.bool true)]) :=
  ⟨fun f a1 a2 kws => rfl, rfl⟩

/-! ## Lemmas about the resolver loop -/

/-- The `mathjax` pseudo-token installs the fixed math configuration and
changes nothing else: no name is added, no cache entry is written. -/
theorem stepExt_mathjax (env : PyEnv) (s : RState) :
    stepExt env s (.name "mathjax") =
      some ({ s with configs := ("mdx_math", mathjax_config) :: s.configs },
            ⟨[], []⟩) := rfl

/-- The `remove_extra` pseudo-token discards exactly the two baseline
canonical names from the name set. -/
theorem stepExt_remove_extra (env : PyEnv) (s : RState) :
    stepExt env s (.name "remove_extra") =
      some ({ s with
              names := (s.names.erase "markdown.extensions.extra").erase "mdx_math" },
            ⟨[], []⟩) := rfl

/-- A token whose parsed name is uncached and fails canonicalization is a
no-op on the resolver state: the step only records the warning and the
load attempt. -/
theorem stepExt_fail {env : PyEnv} {s : RState} {t : PyExpr}
    {name : String} {cfg : Config}
    (hm : isNameTok t "mathjax" = false)
    (hr : isNameTok t "remove_extra" = false)
    (hsplit : _split_extension_config t = some (name, cfg))
    (hmiss : List.lookup name s.cache = none)
    (hcanon : _canonicalize_extension_name env name = none) :
    stepExt env s t = some (s, ⟨[t], [name]⟩) := by
  simp [stepExt, hm, hr, hsplit, resolveName, hmiss, hcanon]

/-- Case analysis on a successful resolver step: it is a `mathjax` config
install, a `remove_extra` baseline removal, a successful canonicalization
adding one name together with its config entry, or a failed
canonicalization that leaves the state unchanged. -/
theorem stepExt_spec {env : PyEnv} {s : RState} {t : PyExpr}
    {s2 : RState} {l : RLog} (h : stepExt env s t = some (s2, l)) :
    (s2.names = s.names
      ∧ s2.configs = ("mdx_math", mathjax_config) :: s.configs
      ∧ s2.cache = s.cache)
    ∨ (isNameTok t "remove_extra" = true
        ∧ s2.names = (s.names.erase "markdown.extensions.extra").erase "mdx_math"
        ∧ s2.configs = s.configs ∧ s2.cache = s.cache)
    ∨ (∃ cn cfg, s2.names = s.names.insert cn
        ∧ s2.configs = (cn, cfg) :: s.configs)
    ∨ (s2.names = s.names ∧ s2.configs = s.configs ∧ s2.cache = s.cache) := by
  unfold stepExt at h
  split at h
  · injection h with h1; injection h1 with h1 h2; subst h1
    exact Or.inl ⟨rfl, rfl, rfl⟩
  · split at h
    · rename_i hr
      injection h with h1; injection h1 with h1 h2; subst h1
      exact Or.inr (Or.inl ⟨hr, rfl, rfl, rfl⟩)
    · split at h
      · exact absurd h (by simp)
      · split at h
        · rename_i cn cache2 att heq
          injection h with h1; injection h1 with h1 h2; subst h1
          exact Or.inr (Or.inr (Or.inl ⟨cn, _, rfl, rfl⟩))
        · rename_i cache2 att heq
          injection h with h1; injection h1 with h1 h2; subst h1
          rcases resolveName_none heq with ⟨hc, -, -, -⟩
          exact Or.inr (Or.inr (Or.inr ⟨rfl, rfl, hc⟩))

/-- A name that fails canonicalization and is absent from the cache stays
absent across any resolver step: the cache only ever gains entries for
names the canonicalizer resolves. -/
theorem stepExt_cache_miss_preserved {env : PyEnv} {s : RState}
    {t : PyExpr} {s2 : RState} {l : RLog} {name : String}
    (hcanon : _canonicalize_extension_name env name = none)
    (hmiss : List.lookup name s.cache = none)
    (h : stepExt env s t = some (s2, l)) :
    List.lookup name s2.cache = none := by
  unfold stepExt at h
  split at h
  · injection h with h1; injection h1 with h1 h2; subst h1; exact hmiss
  · split at h
    · injection h with h1; injection h1 with h1 h2; subst h1; exact hmiss
    · split at h
      · exact absurd h (by simp)
      · split at h
        · rename_i nm cfg hsp x cn cache2 att heq
          injection h with h1; injection h1 with h1 h2; subst h1
          rcases resolveName_some heq with hc | ⟨hc, hcn⟩
          · show List.lookup name cache2 = none
            rw [hc]; exact hmiss
          · show List.lookup name cache2 = none
            rw [hc]
            by_cases hnm : name = nm
            · subst hnm
              rw [hcanon] at hcn
              exact absurd hcn (by simp)
            · have hb : (name == nm) = false := beq_eq_false_iff_ne.mpr hnm
              simp [List.lookup, hb, hmiss]
        · rename_i cache2 att heq
          injection h with h1; injection h1 with h1 h2; subst h1
          rcases resolveName_none heq with ⟨hc, -, -, -⟩
          show List.lookup name cache2 = none
          rw [hc]; exact hmiss

/-- Splitting a resolver run over a list concatenation. -/
theorem processExts_append (env : PyEnv) (xs ys : List PyExpr) :
    ∀ s : RState, processExts env s (xs ++ ys) =
      match processExts env s xs with
      | none => none
      | some (s2, l) =>
        match processExts env s2 ys with
        | none => none
        | some (s3, l2) => some (s3, RLog.app l l2) := by
  induction xs with
  | nil =>
    intro s
    rcases hp : processExts env s ys with _ | ⟨s3, l2⟩ <;>
      simp [processExts, hp, RLog.app_empty_left]
  | cons t ts ih =>
    intro s
    show processExts env s (t :: (ts ++ ys)) = _
    rcases hst : stepExt env s t with _ | ⟨s2, l⟩
    · simp [processExts, hst]
    · simp only [processExts, hst]
      rw [ih s2]
      rcases ha : processExts env s2 ts with _ | ⟨sa, la⟩
      · simp [ha]
      · rcases hb : processExts env sa ys with _ | ⟨sb, lb⟩ <;>
          simp [ha, hb, RLog.app_assoc]

/-- Preservation of a state invariant along a resolver run, for token
lists all of whose tokens satisfy `Q`. -/
theorem processExts_inv_tok (env : PyEnv) (P : RState → Prop)
    (Q : PyExpr → Prop)
    (hstep : ∀ s t s2 l, Q t → P s → stepExt env s t = some (s2, l) → P s2) :
    ∀ (ts : List PyExpr) (s s2 : RState) (l : RLog),
      (∀ t ∈ ts, Q t) → P s → processExts env s ts = some (s2, l) → P s2
  | [], s, s2, l, _, hP, h => by
    simp only [processExts, Option.some.injEq, Prod.mk.injEq] at h
    rw [← h.1]; exact hP
  | t :: ts, s, s2, l, hQ, hP, h => by
    simp only [processExts] at h
    rcases hst : stepExt env s t with _ | ⟨s3, l3⟩
    · rw [hst] at h; simp at h
    · rw [hst] at h
      simp only [] at h
      rcases hp : processExts env s3 ts with _ | ⟨s4, l4⟩
      · rw [hp] at h; simp at h
      · rw [hp] at h
        simp only [Option.some.injEq, Prod.mk.injEq] at h
        rw [← h.1]
        exact processExts_inv_tok env P Q hstep ts s3 s4 l4
          (fun u hu => hQ u (List.mem_cons_of_mem t hu))
          (hstep s t s3 l3 (hQ t (List.mem_cons_self t ts)) hP hst) hp

/-- A config entry, once present, survives a dict update with any key. -/
theorem lookup_configs_isSome_cons (n k : String) (v : Config)
    (c : List (String × Config)) (h : (List.lookup n c).isSome = true) :
    (List.lookup n ((k, v) :: c)).isSome = true := by
  rcases hb : n == k <;> simp [List.lookup, hb, h]

/-! ## Claim C3 -/

/-- C3 counterexample.  On the empty token sequence the resolver returns
the two baseline names with an empty config dict (markdown.py lines
126-127 initialize `extension_configs = {}`), so the baseline name
`mdx_math` is in the name set with no entry in the configs mapping,
contradicting the claimed invariant. -/
theorem C3_counterexample :
    _apply_extensions envNone [] [] [] []
      = some (⟨["markdown.extensions.extra", "mdx_math"], [], []⟩, ⟨[], []⟩)
    ∧ "mdx_math" ∈ ["markdown.extensions.extra", "mdx_math"]
    ∧ List.lookup "mdx_math" ([] : List (String × Config)) = none :=
  ⟨rfl, by simp, rfl⟩

/-- C3 (amended): after every run of the extension-set resolver, every
canonical name in the resulting names set either is one of the two
baseline names placed in the initial accumulator
(`markdown.extensions.extra`, `mdx_math`) or has an entry in the configs
mapping.  The baseline names themselves have a configs entry only when
some token supplies one — not in general. -/
theorem C3_configs_invariant_amended (env : PyEnv)
    (req glob doc : List PyExpr) (cache : List (String × String))
    (s : RState) (log : RLog)
    (h : _apply_extensions env req glob doc cache = some (s, log)) :
    ∀ n ∈ s.names, n = "markdown.extensions.extra" ∨ n = "mdx_math"
      ∨ (List.lookup n s.configs).isSome = true := by
  have hstep : ∀ s1 (t : PyExpr) s2 (l : RLog), True →
      (∀ n ∈ s1.names, n = "markdown.extensions.extra" ∨ n = "mdx_math"
        ∨ (List.lookup n s1.configs).isSome = true) →
      stepExt env s1 t = some (s2, l) →
      (∀ n ∈ s2.names, n = "markdown.extensions.extra" ∨ n = "mdx_math"
        ∨ (List.lookup n s2.configs).isSome = true) := by
    intro s1 t s2 l _ hP hst n hn
    rcases stepExt_spec hst with ⟨hn1, hc1, -⟩ | ⟨-, hn1, hc1, -⟩ |
        ⟨cn, cfg, hn1, hc1⟩ | ⟨hn1, hc1, -⟩
    · rw [hn1] at hn
      rcases hP n hn with h1 | h1 | h1
      · exact Or.inl h1
      · exact Or.inr (Or.inl h1)
      · exact Or.inr (Or.inr (hc1 ▸ lookup_configs_isSome_cons n _ _ _ h1))
    · rw [hn1] at hn
      have hn2 := List.mem_of_mem_erase (List.mem_of_mem_erase hn)
      rcases hP n hn2 with h1 | h1 | h1
      · exact Or.inl h1
      · exact Or.inr (Or.inl h1)
      · exact Or.inr (Or.inr (hc1 ▸ h1))
    · rw [hn1] at hn
      rcases List.mem_insert_iff.mp hn with h1 | h1
      · subst h1
        refine Or.inr (Or.inr ?_)
        rw [hc1]
        simp [List.lookup]
      · rcases hP n h1 with h2 | h2 | h2
        · exact Or.inl h2
        · exact Or.inr (Or.inl h2)
        · exact Or.inr (Or.inr (hc1 ▸ lookup_configs_isSome_cons n _ _ _ h2))
    · rw [hn1] at hn
      rcases hP n hn with h1 | h1 | h1
      · exact Or.inl h1
      · exact Or.inr (Or.inl h1)
      · exact Or.inr (Or.inr (hc1 ▸ h1))
  refine processExts_inv_tok env
    (fun st => ∀ n ∈ st.names, n = "markdown.extensions.extra" ∨ n = "mdx_math"
      ∨ (List.lookup n st.configs).isSome = true)
    (fun _ => True) hstep (req ++ glob ++ doc) (initState cache) s log
    (fun _ _ => trivial) ?_ h
  intro n hn
  rcases List.mem_cons.mp hn with h1 | h1
  · exact Or.inl h1
  · rcases List.mem_cons.mp h1 with h2 | h2
    · exact Or.inr (Or.inl h2)
    · exact absurd h2 (List.not_mem_nil n)

/-- Witness for `C3_configs_invariant_amended`, at the empty run from an
empty cache and the baseline name `mdx_math`. -/
theorem C3_amended_witness :
    "mdx_math" = "markdown.extensions.extra" ∨ "mdx_math" = "mdx_math"
      ∨ (List.lookup "mdx_math"
          (RState.mk ["markdown.extensions.extra", "mdx_math"] [] []).configs).isSome
          = true :=
  C3_configs_invariant_amended envNone [] [] [] []
    ⟨["markdown.extensions.extra", "mdx_math"], [], []⟩ ⟨[], []⟩ rfl
    "mdx_math" (by simp)

/-! ## Claim C4 -/

/-- C4 counterexample.  The claim says that whenever `mathjax` occurs in
the token sequence, `mdx_math` is in the final names set regardless of
the position of `mathjax` relative to other tokens.  The source
(markdown.py lines 130-132) only installs the configuration and never
adds `mdx_math` to `extension_names`: with the sequence
`[remove_extra, mathjax]` the final name set is empty — `mdx_math` is not
in it — while the math config entry is present. -/
theorem C4_counterexample :
    _apply_extensions envNone [.name "remove_extra", .name "mathjax"] [] [] []
      = some (⟨[], [("mdx_math", mathjax_config)], []⟩, ⟨[], []⟩)
    ∧ "mdx_math" ∉ ([] : List String)
    ∧ List.lookup "mdx_math" [("mdx_math", mathjax_config)] = some mathjax_config :=
  ⟨rfl, by simp, rfl⟩

/-- C4 (amended): the `mathjax` token is not canonicalized as an
extension; its step installs the fixed configuration
`enable_dollar_delimiter = true` for `mdx_math` in the configs mapping
and changes nothing else — in particular it does not add `mdx_math` to
the names set, so `mdx_math` is in the final names set only if the
baseline entry survives or another token canonicalizes to it.  Whenever
`mathjax` occurs anywhere in the token sequence, the final configs
mapping has an entry for `mdx_math`. -/
theorem C4_mathjax_amended :
    (∀ (env : PyEnv) (s : RState),
      stepExt env s (.name "mathjax") =
        some ({ s with configs := ("mdx_math", mathjax_config) :: s.configs },
              ⟨[], []⟩))
    ∧ (∀ (env : PyEnv) (req glob doc : List PyExpr)
        (cache : List (String × String)) (s : RState) (log : RLog),
        PyExpr.name "mathjax" ∈ (req ++ glob ++ doc) →
        _apply_extensions env req glob doc cache = some (s, log) →
        (List.lookup "mdx_math" s.configs).isSome = true) := by
  refine ⟨stepExt_mathjax, ?_⟩
  intro env req glob doc cache s log hmem h
  obtain ⟨pre, post, hsp⟩ := List.append_of_mem hmem
  unfold _apply_extensions at h
  rw [hsp, processExts_append env pre (PyExpr.name "mathjax" :: post)
    (initState cache)] at h
  rcases hp : processExts env (initState cache) pre with _ | ⟨s1, l1⟩
  · rw [hp] at h; simp at h
  · rw [hp] at h
    simp only [processExts, stepExt_mathjax] at h
    rcases hq : processExts env
        { s1 with configs := ("mdx_math", mathjax_config) :: s1.configs } post
        with _ | ⟨s2, l2⟩
    · rw [hq] at h; simp at h
    · rw [hq] at h
      simp only [Option.some.injEq, Prod.mk.injEq] at h
      rw [← h.1]
      refine processExts_inv_tok env
        (fun st => (List.lookup "mdx_math" st.configs).isSome = true)
        (fun _ => True) ?_ post _ s2 l2 (fun _ _ => trivial) ?_ hq
      · intro sa t sb lb _ hP hst
        rcases stepExt_spec hst with ⟨-, hc1, -⟩ | ⟨-, -, hc1, -⟩ |
            ⟨cn, cfg, -, hc1⟩ | ⟨-, hc1, -⟩
        · exact hc1 ▸ lookup_configs_isSome_cons _ _ _ _ hP
        · exact hc1 ▸ hP
        · exact hc1 ▸ lookup_configs_isSome_cons _ _ _ _ hP
        · exact hc1 ▸ hP
      · simp [List.lookup]

/-- Witness for `C4_mathjax_amended`, at the one-token run `[mathjax]`
from an empty cache. -/
theorem C4_amended_witness :
    (List.lookup "mdx_math"
      (RState.mk ["markdown.extensions.extra", "mdx_math"]
        [("mdx_math", mathjax_config)] []).configs).isSome = true :=
  C4_mathjax_amended.2 envNone [.name "mathjax"] [] [] []
    ⟨["markdown.extensions.extra", "mdx_math"], [("mdx_math", mathjax_config)], []⟩
    ⟨[], []⟩ (by simp) rfl

/-! ## Claim C5 -/

/-- C5 counterexample.  With the baseline extras module available, run
the sequence `[remove_extra, extra, remove_extra]`: the second token
re-adds the baseline canonical name `markdown.extensions.extra` after
the first `remove_extra`, and the final `remove_extra` removes it again
(markdown.py lines 133-137 remove the baseline names whenever the token
is encountered).  The final name set is empty, refuting both halves of
the claim: the re-added baseline is not active, and an extension added
before a `remove_extra` was removed by it. -/
theorem C5_counterexample :
    _canonicalize_extension_name envExtra "extra" = some "markdown.extensions.extra"
    ∧ _apply_extensions envExtra
        [.name "remove_extra", .name "extra", .name "remove_extra"] [] [] []
        = some (⟨[], [("markdown.extensions.extra", ([] : Config))],
                  [("extra", "markdown.extensions.extra")]⟩,
                ⟨[], ["extra"]⟩)
    ∧ "markdown.extensions.extra" ∉ ([] : List String) :=
  ⟨rfl, rfl, by simp⟩

/-- C5 (amended): `remove_extra` acts in encounter order, and it removes
exactly the two baseline canonical names.  (a) Any name present in the
accumulating set survives the rest of the run when no later token is
`remove_extra` — so a baseline re-added after a `remove_extra` is active
provided no further `remove_extra` follows.  (b) Any name other than the
two baseline names (`markdown.extensions.extra`, `mdx_math`) survives the
rest of the run unconditionally — `remove_extra` never removes a
non-baseline extension, but contrary to the claim it does remove a
baseline extension added before it.  (c) The `remove_extra` step erases
exactly the two baseline names. -/
theorem C5_remove_extra_amended :
    (∀ (env : PyEnv) (ts : List PyExpr),
      (∀ t ∈ ts, isNameTok t "remove_extra" = false) →
      ∀ (s s2 : RState) (l : RLog), processExts env s ts = some (s2, l) →
      ∀ c ∈ s.names, c ∈ s2.names)
    ∧ (∀ (env : PyEnv) (ts : List PyExpr) (s s2 : RState) (l : RLog),
        processExts env s ts = some (s2, l) →
        ∀ c ∈ s.names, c ≠ "markdown.extensions.extra" → c ≠ "mdx_math" →
        c ∈ s2.names)
    ∧ (∀ (env : PyEnv) (s : RState),
        stepExt env s (.name "remove_extra") =
          some ({ s with
                  names := (s.names.erase "markdown.extensions.extra").erase
                    "mdx_math" }, ⟨[], []⟩)) := by
  refine ⟨?_, ?_, stepExt_remove_extra⟩
  · intro env ts hts s s2 l h c hc
    refine processExts_inv_tok env (fun st => c ∈ st.names)
      (fun t => isNameTok t "remove_extra" = false) ?_ ts s s2 l hts hc h
    intro sa t sb lb hQ hP hst
    rcases stepExt_spec hst with ⟨hn1, -, -⟩ | ⟨hq, -, -, -⟩ |
        ⟨cn, cfg, hn1, -⟩ | ⟨hn1, -, -⟩
    · exact hn1 ▸ hP
    · rw [hq] at hQ; exact absurd hQ (by simp)
    · exact hn1 ▸ List.mem_insert_of_mem hP
    · exact hn1 ▸ hP
  · intro env ts s s2 l h c hc hne1 hne2
    refine processExts_inv_tok env (fun st => c ∈ st.names)
      (fun _ => True) ?_ ts s s2 l (fun _ _ => trivial) hc h
    intro sa t sb lb _ hP hst
    rcases stepExt_spec hst with ⟨hn1, -, -⟩ | ⟨-, hn1, -, -⟩ |
        ⟨cn, cfg, hn1, -⟩ | ⟨hn1, -, -⟩
    · exact hn1 ▸ hP
    · rw [hn1]
      exact (List.mem_erase_of_ne hne2).mpr ((List.mem_erase_of_ne hne1).mpr hP)
    · exact hn1 ▸ List.mem_insert_of_mem hP
    · exact hn1 ▸ hP

/-- Witness for `C5_remove_extra_amended`: part (a) at the
`remove_extra`-free run `[extra]` keeping `mdx_math` active, and part (b)
at the run `[remove_extra]` keeping the non-baseline name `x` active. -/
theorem C5_amended_witness :
    "mdx_math" ∈ (RState.mk ["markdown.extensions.extra", "mdx_math"]
        [("markdown.extensions.extra", ([] : Config))]
        [("extra", "markdown.extensions.extra")]).names
    ∧ "x" ∈ (RState.mk ["x"] [] []).names :=
  ⟨C5_remove_extra_amended.1 envExtra [.name "extra"]
      (fun t ht => by rw [List.mem_singleton.mp ht]; rfl)
      (initState []) _ _ rfl "mdx_math" (by simp [initState]),
   C5_remove_extra_amended.2.1 envNone [.name "remove_extra"]
      ⟨["x"], [], []⟩ _ _ rfl "x" (by simp) (by simp) (by simp)⟩

/-! ## Claim C6 -/

/-- Core of C6, generalized over the starting state: a non-pseudo token
whose parsed name is uncached and fails canonicalization under all
prefixes contributes nothing to the resulting state — processing the
sequence with the token is the same, state-wise, as processing the
sequence with the token removed — and whenever the run completes, the
offending token has been reported to `warnings.warn`. -/
theorem C6_core (env : PyEnv) (tok : PyExpr) (name : String) (cfg : Config)
    (hm : isNameTok tok "mathjax" = false)
    (hr : isNameTok tok "remove_extra" = false)
    (hsplit : _split_extension_config tok = some (name, cfg))
    (hcanon : _canonicalize_extension_name env name = none) :
    ∀ (pre : List PyExpr) (s : RState), List.lookup name s.cache = none →
    ∀ post : List PyExpr,
      ((processExts env s (pre ++ tok :: post)).map Prod.fst
        = (processExts env s (pre ++ post)).map Prod.fst)
      ∧ (∀ (s2 : RState) (l : RLog),
          processExts env s (pre ++ tok :: post) = some (s2, l) →
          tok ∈ l.warns)
  | [], s, hmiss, post => by
    have hstep := stepExt_fail hm hr hsplit hmiss hcanon
    constructor
    · show (processExts env s (tok :: post)).map Prod.fst = _
      simp only [processExts, hstep]
      rcases hp : processExts env s post with _ | ⟨s3, l2⟩ <;> simp [hp]
    · intro s2 l h
      simp only [processExts, hstep] at h
      rcases hp : processExts env s post with _ | ⟨s3, l2⟩
      · rw [hp] at h; simp at h
      · rw [hp] at h
        simp only [Option.some.injEq, Prod.mk.injEq] at h
        rw [← h.2]
        simp [RLog.app]
  | p :: pre, s, hmiss, post => by
    constructor
    · show (processExts env s (p :: (pre ++ tok :: post))).map Prod.fst
        = (processExts env s (p :: (pre ++ post))).map Prod.fst
      simp only [processExts]
      rcases hst : stepExt env s p with _ | ⟨s2, l2⟩
      · simp
      · have hmiss2 := stepExt_cache_miss_preserved hcanon hmiss hst
        have IH := (C6_core env tok name cfg hm hr hsplit hcanon pre s2 hmiss2
          post).1
        rcases hA : processExts env s2 (pre ++ tok :: post) with _ | ⟨sa, la⟩ <;>
          rcases hB : processExts env s2 (pre ++ post) with _ | ⟨sb, lb⟩ <;>
            rw [hA, hB] at IH <;> simp at IH <;> simp [hA, hB, IH]
    · intro s2 l h
      rw [List.cons_append] at h
      simp only [processExts] at h
      rcases hst : stepExt env s p with _ | ⟨s3, l3⟩
      · rw [hst] at h; simp at h
      · rw [hst] at h
        simp only [] at h
        have hmiss2 := stepExt_cache_miss_preserved hcanon hmiss hst
        rcases hA : processExts env s3 (pre ++ tok :: post) with _ | ⟨sa, la⟩
        · rw [hA] at h; simp at h
        · rw [hA] at h
          simp only [Option.some.injEq, Prod.mk.injEq] at h
          have IH := (C6_core env tok name cfg hm hr hsplit hcanon pre s3 hmiss2
            post).2 sa la hA
          rw [← h.2]
          simp only [RLog.app, List.mem_append]
          exact Or.inr IH

/-- C6: a token whose name fails canonicalization under all namespace
prefixes (and is not cached from an earlier success) is reported to
`warnings.warn` and skipped, and resolution continues: the resulting
state — names, configs and cache — is exactly the state produced from
the same token sequence with the offending token removed, and the
failure is not fatal (one run completes exactly when the other does).
`_apply_extensions env req glob doc cache` is by definition
`processExts env (initState cache) (req ++ glob ++ doc)`, so the
statement covers a failing token at any position of any run. -/
theorem C6_unknown_extension_skipped (env : PyEnv)
    (cache : List (String × String)) (pre post : List PyExpr)
    (tok : PyExpr) (name : String) (cfg : Config)
    (hm : isNameTok tok "mathjax" = false)
    (hr : isNameTok tok "remove_extra" = false)
    (hsplit : _split_extension_config tok = some (name, cfg))
    (hcanon : _canonicalize_extension_name env name = none)
    (hmiss : List.lookup name cache = none) :
    ((processExts env (initState cache) (pre ++ tok :: post)).map Prod.fst
      = (processExts env (initState cache) (pre ++ post)).map Prod.fst)
    ∧ (∀ (s : RState) (l : RLog),
        processExts env (initState cache) (pre ++ tok :: post) = some (s, l) →
        tok ∈ l.warns) :=
  C6_core env tok name cfg hm hr hsplit hcanon pre (initState cache) hmiss post

/-- Witness for `C6_unknown_extension_skipped`, at the one-token run
`[nonexistent123]` in an import system with no modules: the run is
equivalent to the empty run and the token is warned about. -/
theorem C6_witness :
    ((processExts envNone (initState []) [.name "nonexistent123"]).map Prod.fst
      = (processExts envNone (initState []) []).map Prod.fst)
    ∧ PyExpr.name "nonexistent123"
        ∈ (RLog.mk [.name "nonexistent123"] ["nonexistent123"]).warns :=
  ⟨(C6_unknown_extension_skipped envNone [] [] [] (.name "nonexistent123")
      "nonexistent123" [] rfl rfl rfl rfl rfl).1,
   (C6_unknown_extension_skipped envNone [] [] [] (.name "nonexistent123")
      "nonexistent123" [] rfl rfl rfl rfl rfl).2
     (initState []) ⟨[.name "nonexistent123"], ["nonexistent123"]⟩ rfl⟩

/-! ## Lemmas about the directive scanner -/

theorem takeWhile_all_append (p : Char → Bool) :
    ∀ (l1 l2 : List Char), (∀ x ∈ l1, p x = true) →
      (l1 ++ l2).takeWhile p = l1 ++ l2.takeWhile p
  | [], _, _ => rfl
  | a :: l1, l2, h => by
    rw [List.cons_append, List.takeWhile_cons_of_pos (h a (List.mem_cons_self a l1)),
      takeWhile_all_append p l1 l2 (fun x hx => h x (List.mem_cons_of_mem a hx)),
      List.cons_append]

/-- Case-insensitive stripping of a pattern succeeds on the pattern
itself followed by anything. -/
theorem stripCI_refl : ∀ (pat rest : List Char),
    stripCI pat (pat ++ rest) = some rest
  | [], _ => rfl
  | c :: pat, rest => by
    show stripCI (c :: pat) (c :: (pat ++ rest)) = some rest
    simp only [stripCI, beq_self_eq_true, if_true]
    exact stripCI_refl pat rest

/-- A match of the directive pattern at the very start of the input is in
particular the leftmost match: `search` returns its capture. -/
theorem searchDirective_head : ∀ {l r : List Char},
    matchDirectiveAt l = some r → searchDirective l = some r := by
  intro l r h
  cases l with
  | nil =>
    rw [show matchDirectiveAt ([] : List Char) = none from rfl] at h
    exact Option.noConfusion h
  | cons c cs => simp [searchDirective, h]

/-- A directive match anywhere in the line is found by the scan: if the
anchored pattern matches at some position (here: right after `pre`), the
unanchored search succeeds — the pattern is not anchored to the start of
the line. -/
theorem searchDirective_isSome_append : ∀ (pre suf r : List Char),
    matchDirectiveAt suf = some r → (searchDirective (pre ++ suf)).isSome = true
  | [], suf, r, h => by rw [List.nil_append, searchDirective_head h]; rfl
  | c :: pre, suf, r, h => by
    show (searchDirective (c :: (pre ++ suf))).isSome = true
    simp only [searchDirective]
    rcases hM : matchDirectiveAt (c :: (pre ++ suf)) with _ | r2
    · exact searchDirective_isSome_append pre suf r h
    · rfl

/-! ## Claim C8 -/

/-- C8: the directive scanner inspects only the first line.  (a) The
empty text has no first line and yields the empty sequence.  (b) The
result depends only on the first line: texts with the same first line
scan identically.  (c) When the first line does not match the directive
pattern the result is the empty sequence.  (d) When it matches, the
result is exactly the `extension_name_re.findall` tokenization of the
captured remainder. -/
theorem C8_directive_scanner :
    (_get_document_extensions "" = [])
    ∧ (∀ t1 t2 : String, firstLine t1 = firstLine t2 →
        _get_document_extensions t1 = _get_document_extensions t2)
    ∧ (∀ (t : String) (line : List Char), firstLine t = some line →
        searchDirective line = none → _get_document_extensions t = [])
    ∧ (∀ (t : String) (line rest : List Char), firstLine t = some line →
        searchDirective line = some rest →
        _get_document_extensions t = findallExt rest) := by
  refine ⟨rfl, ?_, ?_, ?_⟩
  · intro t1 t2 h
    simp only [_get_document_extensions, h]
  · intro t line h1 h2
    simp only [_get_document_extensions, h1, h2]
  · intro t line rest h1 h2
    simp only [_get_document_extensions, h1, h2]

/-- Witness for `C8_directive_scanner`: the matching conjunct at a
two-line document whose first line carries the directive (`-` is the
any-character between the two words), and the first-line-only conjunct at
a pair of texts sharing the first line. -/
theorem C8_witness :
    (_get_document_extensions "Required-Extensions: meta\nTitle: x"
      = findallExt ("meta".data))
    ∧ (_get_document_extensions "abc\ndef"
        = _get_document_extensions "abc\nghi") :=
  ⟨C8_directive_scanner.2.2.2 "Required-Extensions: meta\nTitle: x"
      ("Required-Extensions: meta".data) ("meta".data) rfl rfl,
   C8_directive_scanner.2.1 "abc\ndef" "abc\nghi" rfl⟩

/-! ## Claim C9 -/

theorem takeWhile_all (p : Char → Bool) :
    ∀ (l : List Char), (∀ x ∈ l, p x = true) → l.takeWhile p = l
  | [], _ => rfl
  | a :: l, h => by
    rw [List.takeWhile_cons_of_pos (h a (List.mem_cons_self a l)),
      takeWhile_all p l (fun x hx => h x (List.mem_cons_of_mem a hx))]

/-- C9: the directive is recognized anywhere in the first line, and the
`.` of the pattern `required.extensions: ` accepts any single character
other than a newline (the only character the regex `.` does not match).
(a) The test-suite header line, where the directive sits mid-line after
an HTML-comment opener and `-` stands between the two words, declares
exactly the token `mathjax`.  (b) At the regex level, the anchored
pattern match accepts any character except `\n` between the two words —
including the `str.splitlines` boundary characters, which however never
reach the regex because a first line cannot contain them.  (c) At the
program level, for every character that can occur in a first line (every
non-line-boundary character), the document whose first line is
`required` + `c` + `extensions: mathjax` is scanned to the token
`mathjax`.  (d) A match of the anchored directive pattern after any
position is found by the unanchored search. -/
theorem C9_directive_anywhere_anychar :
    (_get_document_extensions
      "<!--- Type: markdown; Required extensions: mathjax --->\n\nsome $$x$$"
      = ["mathjax"])
    ∧ (∀ c : Char, c ≠ '\n' →
        matchDirectiveAt ("required".data ++ c :: "extensions: mathjax".data)
          = some ("mathjax".data))
    ∧ (∀ c : Char, isLineBreak c = false →
        _get_document_extensions
          (String.mk ("required".data ++ c :: "extensions: mathjax".data))
          = ["mathjax"])
    ∧ (∀ (pre suf r : List Char), matchDirectiveAt suf = some r →
        (searchDirective (pre ++ suf)).isSome = true) := by
  have hmatchGen : ∀ c : Char, c ≠ '\n' →
      matchDirectiveAt ("required".data ++ c :: "extensions: mathjax".data)
        = some ("mathjax".data) := by
    intro c h1
    have hcnl : (c == '\n') = false := beq_eq_false_iff_ne.mpr h1
    simp only [matchDirectiveAt, stripCI_refl, hcnl,
      show "extensions: mathjax".data
        = "extensions: ".data ++ "mathjax".data from rfl,
      stripCI_refl]
    rfl
  refine ⟨rfl, hmatchGen, ?_, searchDirective_isSome_append⟩
  intro c hc
  have h1 : c ≠ '\n' := by
    intro he
    rw [he] at hc
    exact absurd hc (by decide)
  have hall : ∀ x ∈ ("required".data ++ c :: "extensions: mathjax".data),
      ((fun ch => !(isLineBreak ch)) x) = true := by
    intro x hx
    rcases List.mem_append.mp hx with hx | hx
    · exact (by decide :
        ∀ x ∈ "required".data, (!(isLineBreak x)) = true) x hx
    · rcases List.mem_cons.mp hx with hx | hx
      · rw [hx]
        simp [hc]
      · exact (by decide :
          ∀ x ∈ "extensions: mathjax".data, (!(isLineBreak x)) = true) x hx
  have hfl : firstLine
      (String.mk ("required".data ++ c :: "extensions: mathjax".data))
      = some (("required".data ++ c :: "extensions: mathjax".data).takeWhile
          (fun ch => !(isLineBreak ch))) := rfl
  rw [takeWhile_all _ _ hall] at hfl
  have hsearch := searchDirective_head (hmatchGen c h1)
  simp only [_get_document_extensions, hfl, hsearch]
  rfl

/-- Witness for `C9_directive_anywhere_anychar`: the program-level
any-character conjunct at `c = '-'` (the hyphen of
`Required-Extensions:`), the regex-level conjunct at the vertical tab —
a character the regex `.` accepts even though a first line can never
carry it to the regex — and the anywhere conjunct at the comment-opener
position of the header line. -/
theorem C9_witness :
    (_get_document_extensions
      (String.mk ("required".data ++ '-' :: "extensions: mathjax".data))
      = ["mathjax"])
    ∧ (matchDirectiveAt
        ("required".data ++ '\x0b' :: "extensions: mathjax".data)
        = some ("mathjax".data))
    ∧ (searchDirective
        ("<!--- Type: markdown; ".data
          ++ "Required extensions: mathjax --->".data)).isSome = true :=
  ⟨C9_directive_anywhere_anychar.2.2.1 '-' (by decide),
   C9_directive_anywhere_anychar.2.1 '\x0b' (by decide),
   C9_directive_anywhere_anychar.2.2.2 "<!--- Type: markdown; ".data
     "Required extensions: mathjax --->".data ("mathjax --->".data) rfl⟩
